import Mathlib

/-!
A verification development for the zkApp transaction core of this repository
(account-update data model, call-forest algorithms, nonce resolution and the
authorization pipeline). The TypeScript source is shallowly embedded:
field elements and public keys are modelled abstractly as natural numbers,
external primitives (hashing, token-id derivation, signing, commitments) are
parameters collected in an `Env` structure, and the mutation-based tree
operations are modelled as explicit state transformers.
-/

namespace O1js

/-- Field elements, modelled abstractly. `Field(0)` is `0`, `Field(1)` is `1`. -/
abbrev F := Nat

/-- Public keys, modelled abstractly; `0` plays the role of `PublicKey.empty()`,
the well-known "empty" placeholder key. -/
abbrev PK := Nat

/-- `PublicKey.empty()`. -/
def emptyPublicKey : PK := 0

/-- `TokenId.default`, the fixed well-known id of the default token (`Field(1)`). -/
def TokenId.default : F := 1

/-- `Types.AuthRequired` / one `Permission` value: three boolean flags. -/
structure Permission where
  constant : Bool
  signatureNecessary : Bool
  signatureSufficient : Bool
deriving Repr, DecidableEq

/-- `Permission.impossible()`. -/
def Permission.impossible : Permission :=
  { constant := true, signatureNecessary := true, signatureSufficient := false }

/-- `Permission.none()`. -/
def Permission.none : Permission :=
  { constant := true, signatureNecessary := false, signatureSufficient := true }

/-- `Permission.proof()`. -/
def Permission.proof : Permission :=
  { constant := false, signatureNecessary := false, signatureSufficient := false }

/-- `Permission.signature()`. -/
def Permission.signature : Permission :=
  { constant := false, signatureNecessary := true, signatureSufficient := true }

/-- `Permission.proofOrSignature()`. -/
def Permission.proofOrSignature : Permission :=
  { constant := false, signatureNecessary := false, signatureSufficient := true }

/-- `Permissions.fromString`: the `switch` over the five recognized permission
strings; the `default` branch throws, modelled as `Except.error` carrying the
thrown message. -/
def Permissions.fromString (permission : String) : Except String Permission :=
  if permission = "None" then .ok Permission.none
  else if permission = "Either" then .ok Permission.proofOrSignature
  else if permission = "Proof" then .ok Permission.proof
  else if permission = "Signature" then .ok Permission.signature
  else if permission = "Impossible" then .ok Permission.impossible
  else .error ("Cannot parse invalid permission. " ++ permission ++ " does not exist.")

/-- The five recognized permission strings. -/
def recognizedPermissionStrings : List String :=
  ["None", "Either", "Proof", "Signature", "Impossible"]

/-- `body.authorizationKind`: the signed/proved flags. -/
structure AuthorizationKind where
  isSigned : Bool
  isProved : Bool
deriving Repr, DecidableEq

/-- The fields of `Body` that the call-forest, nonce and authorization
algorithms read or write. Fields not used by any of those algorithms
(update, balanceChange, events, preconditions, ...) are elided; they are
carried opaquely by the external hash parameters of `Env`. -/
structure Body where
  publicKey : PK
  tokenId : F
  caller : F
  callDepth : Nat
  useFullCommitment : Bool
  incrementNonce : Bool
  authorizationKind : AuthorizationKind
deriving Repr, DecidableEq

/-- `Body.keepAll(publicKey)`: the default body (default token, depth 0,
`useFullCommitment = false`, `incrementNonce = false`, authorization kind
"None given"). -/
def Body.keepAll (publicKey : PK) : Body :=
  { publicKey
    tokenId := TokenId.default
    caller := TokenId.default
    callDepth := 0
    useFullCommitment := false
    incrementNonce := false
    authorizationKind := { isSigned := false, isProved := false } }

/-- The `authorization` slot (`Control`): either empty `{}`, a finalized
signature `{ signature }`, or a finalized proof `{ proof }`. -/
inductive Control where
  | empty
  | signature (s : F)
  | proof (p : F)
deriving Repr, DecidableEq

/-- The lazy authorization intents. The proof intent's payload (method name,
arguments, nested proofs, contract class, memoized values, blinding value)
plays no role in the claims below and is represented by an opaque tag. -/
inductive LazyAuthorization where
  | lazySignature (privateKey : Option Nat)
  | lazyProof (payload : Nat)
  | lazyNone
deriving Repr, DecidableEq

/-- `children.callsType`. -/
inductive CallsType where
  | none
  | witness
  | equals (value : F)
deriving Repr, DecidableEq

/-- The scalar data of one `AccountUpdate` node: everything except the child
list. The `parent` back-reference does not appear here: it is a relation,
not ownership, and is modelled explicitly in the `Store` state used for the
tree-surgery operations. -/
structure AUData where
  id : Nat
  label : String
  body : Body
  isDelegateCall : Bool
  authorization : Control
  lazyAuthorization : Option LazyAuthorization
  callsType : CallsType
deriving Repr, DecidableEq

/-- An `AccountUpdate` node: its scalar data plus its ordered list of owned
children (`children.accountUpdates`). -/
inductive AccountUpdate where
  | mk (data : AUData) (children : List AccountUpdate)

/-- The scalar data of a node. -/
def AccountUpdate.data : AccountUpdate → AUData
  | .mk d _ => d

/-- `children.accountUpdates` of a node. -/
def AccountUpdate.children : AccountUpdate → List AccountUpdate
  | .mk _ cs => cs

/-- The node's `id`. -/
def AccountUpdate.id (u : AccountUpdate) : Nat := u.data.id

/-- The node's `body`. -/
def AccountUpdate.body (u : AccountUpdate) : Body := u.data.body

/-- `isDummy()`: the node's public key equals the empty placeholder. -/
def AccountUpdate.isDummy (u : AccountUpdate) : Bool :=
  u.body.publicKey = emptyPublicKey

/-- The constructor `new AccountUpdate(body, authorization = {})`: fresh `id`
(modelled as an explicit argument in place of `Math.random()`), empty label,
no children, no parent, no lazy authorization. -/
def AccountUpdate.new (freshId : Nat) (body : Body) (authorization : Control := .empty) :
    AccountUpdate :=
  .mk
    { id := freshId
      label := ""
      body := body
      isDelegateCall := false
      authorization := authorization
      lazyAuthorization := Option.none
      callsType := .none }
    []

/-- `AccountUpdate.defaultAccountUpdate(address, tokenId?)`: `Body.keepAll`,
with `tokenId` and `caller` overridden when a token id is supplied. -/
def AccountUpdate.defaultAccountUpdate (freshId : Nat) (address : PK)
    (tokenId : Option F := Option.none) : AccountUpdate :=
  let body := Body.keepAll address
  let body :=
    match tokenId with
    | Option.some t => { body with tokenId := t, caller := t }
    | Option.none => body
  AccountUpdate.new freshId body

/-- `FeePayerBody`: fee + nonce + validity window only; no token id. Only the
fields the authorization pipeline reads are kept. -/
structure FeePayerBody where
  publicKey : PK
  nonce : Nat
deriving Repr, DecidableEq

/-- `FeePayerUnsigned`: a fee payer whose `authorization` is a (dummy)
signature string and whose `lazyAuthorization`, when present, is a
lazy-signature intent (optional private key). -/
structure FeePayerUnsigned where
  body : FeePayerBody
  authorization : F
  lazyAuthorization : Option (Option Nat)
deriving Repr, DecidableEq

/-- A fee payer with a finalized signature (`FeePayer`). -/
structure FeePayerSigned where
  body : FeePayerBody
  authorization : F
deriving Repr, DecidableEq

/-- `ZkappCommand`: fee payer, top-level account-update roots, memo. -/
structure ZkappCommand where
  feePayer : FeePayerUnsigned
  accountUpdates : List AccountUpdate
  memo : String

/-- The external collaborators consumed by this core, as opaque function
parameters: the two-input hash-with-domain-separator primitive
(`hashWithPrefix`), the account-update hash (`accountUpdate.hash()` /
`Ledger.hashAccountUpdateFromJson`), custom token id derivation
(`Ledger.customTokenId`), key derivation (`PrivateKey.toPublicKey`), field
signing (`Ledger.signFieldElement`), the two transaction commitments
(`Ledger.transactionCommitments`, partial then full), and the account nonce
precondition value (`Precondition.getAccountPreconditions(body).nonce`). -/
structure Env where
  hashWithDomain : String → List F → F
  hashAccountUpdate : AccountUpdate → F
  customTokenId : PK → F → F
  toPublicKey : Nat → PK
  signFieldElement : F → Nat → F
  transactionCommitments : ZkappCommand → F × F
  accountPreconditionNonce : Body → Nat

/-- The domain separator `prefixes.accountUpdateNode`. -/
def accountUpdateNode : String := "MinaAcctUpdateNode"

/-- The domain separator `prefixes.accountUpdateCons`. -/
def accountUpdateCons : String := "MinaAcctUpdateCons"

namespace CallForest

/-- `CallForest.toFlatList(forest, depth)`: depth-first traversal; skips a
dummy node (`continue`) without descending into it; otherwise sets the node's
`body.callDepth` to the current depth and emits the node followed by its
flattened children at `depth + 1`. -/
def toFlatList : List AccountUpdate → Nat → List AccountUpdate
  | [], _ => []
  | .mk d cs :: rest, depth =>
      if (AccountUpdate.mk d cs).isDummy then toFlatList rest depth
      else
        AccountUpdate.mk { d with body := { d.body with callDepth := depth } } cs ::
          (toFlatList cs (depth + 1) ++ toFlatList rest depth)

/-- `CallForest.emptyHash()` = `Field(0)`. -/
def emptyHash : F := 0

/-- `CallForest.forEach(updates, callback)`'s visit order: the full
depth-first pre-order sequence of nodes of the forest. -/
def forEachList : List AccountUpdate → List AccountUpdate
  | [] => []
  | .mk d cs :: rest => .mk d cs :: (forEachList cs ++ forEachList rest)

/-- One step of `forEachPredecessor`'s stateful callback: first clear the
`isPredecessor` flag on an id match with the target, then, if the flag is
still set, append the visited node to the callback's argument list. -/
def predecessorStep (targetId : Nat) (st : Bool × List AccountUpdate)
    (v : AccountUpdate) : Bool × List AccountUpdate :=
  let isPredecessor := if v.id = targetId then false else st.1
  (isPredecessor, if isPredecessor then st.2 ++ [v] else st.2)

/-- `CallForest.forEachPredecessor(updates, update, callback)`: the list of
nodes the callback is invoked on, obtained by running the flag-carrying
callback over the full `forEach` visit sequence. -/
def forEachPredecessorList (updates : List AccountUpdate) (update : AccountUpdate) :
    List AccountUpdate :=
  ((forEachList updates).foldl (predecessorStep update.id) (true, [])).2

mutual

/-- `CallForest.hashChildren(update)`, in out-of-circuit semantics:
`Circuit.witness` just runs its thunk, and the `Equals` assertion is guarded
by `inCheckedComputation()` and hence skipped, so every `callsType` branch
returns `hashChildrenBase update`. -/
def hashChildren (env : Env) (update : AccountUpdate) : F :=
  match update.data.callsType with
  | .witness => hashChildrenBase env update
  | .equals _ => hashChildrenBase env update
  | .none => hashChildrenBase env update

/-- `CallForest.hashChildrenBase({ children })`: fold the children into a
stack hash. The source iterates `[...children.accountUpdates].reverse()`
updating a mutable `stackHash`; that left fold over the reversed list is the
structural right-to-left recursion written here (proved equal to the
reverse-order left fold in `hashChildrenList_eq_reverse_foldl`). -/
def hashChildrenBase (env : Env) (update : AccountUpdate) : F :=
  match update with
  | .mk _ cs => hashChildrenList env cs

/-- The body of `hashChildrenBase`'s loop, as a recursion over the child
list: `nodeHash = H(accountUpdateNode, [child.hash(), hashChildren(child)])`,
`newHash = H(accountUpdateCons, [nodeHash, stackHash])`, and a dummy child
leaves the stack hash unchanged (`Circuit.if`, modelled as `if` since the
condition is a computed boolean out of circuit). -/
def hashChildrenList (env : Env) : List AccountUpdate → F
  | [] => emptyHash
  | c :: rest =>
      let stackHash := hashChildrenList env rest
      let calls := hashChildren env c
      let nodeHash := env.hashWithDomain accountUpdateNode [env.hashAccountUpdate c, calls]
      let newHash := env.hashWithDomain accountUpdateCons [nodeHash, stackHash]
      if c.isDummy then stackHash else newHash

end

/-- The {self, caller} token-id context of the caller-propagation pass. -/
structure CallerContext where
  self : F
  caller : F
deriving Repr, DecidableEq

/-- The root context: both `self` and `caller` are the default token id. -/
def rootCallerContext : CallerContext :=
  { self := TokenId.default, caller := TokenId.default }

/-- `CallForest.addCallers(updates, context)`: top-down pass. A delegate call
inherits the parent's caller and self; otherwise the node's caller is the
parent's self and the node becomes its own context's self via its derived
token id. Writes `body.caller` on every node and recurses with the child
context. -/
def addCallers (env : Env) : List AccountUpdate → CallerContext → List AccountUpdate
  | [], _ => []
  | .mk d cs :: rest, context =>
      let caller := if d.isDelegateCall then context.caller else context.self
      let selfId :=
        if d.isDelegateCall then context.self
        else env.customTokenId d.body.publicKey d.body.tokenId
      AccountUpdate.mk { d with body := { d.body with caller := caller } }
          (addCallers env cs { self := selfId, caller := caller }) ::
        addCallers env rest context

/-- The context `addCallers` hands to the children of a node it visits with
ambient context `context` (and from which it computes the node's own caller). -/
def childContext (env : Env) (d : AUData) (context : CallerContext) : CallerContext :=
  { self :=
      if d.isDelegateCall then context.self
      else env.customTokenId d.body.publicKey d.body.tokenId
    caller := if d.isDelegateCall then context.caller else context.self }

/-- What `addCallers` does to one node visited with ambient context
`context`: write its caller and recurse into its children with the child
context. -/
def addCallersNode (env : Env) (context : CallerContext) : AccountUpdate → AccountUpdate
  | .mk d cs =>
      AccountUpdate.mk
        { d with
            body :=
              { d.body with
                  caller := if d.isDelegateCall then context.caller else context.self } }
        (addCallers env cs (childContext env d context))

/-- `CallForest.computeCallerContext(update)`, applied to the node's ancestor
chain (root-first, as built by the `unshift` loop over `parent` links): start
from the default context and, for every non-delegate ancestor, shift `self`
into `caller` and derive a new `self` from the ancestor's token. -/
def computeCallerContextFold (env : Env) (ancestors : List AccountUpdate) : CallerContext :=
  ancestors.foldl
    (fun context a =>
      if a.data.isDelegateCall then context
      else
        { caller := context.self
          self := env.customTokenId a.body.publicKey a.body.tokenId })
    rootCallerContext

/-- The node of a forest at a (nonempty) path of child indices. -/
def nodeAt : List AccountUpdate → List Nat → Option AccountUpdate
  | _, [] => Option.none
  | f, [i] => f.get? i
  | f, i :: rest =>
      match f.get? i with
      | Option.none => Option.none
      | Option.some u => nodeAt u.children rest

/-- The ancestor chain (root-first) of the node at a path: exactly the nodes a
consistent `parent` back-reference walk would collect. -/
def ancestorsAlong : List AccountUpdate → List Nat → List AccountUpdate
  | _, [] => []
  | _, [_] => []
  | f, i :: rest =>
      match f.get? i with
      | Option.none => []
      | Option.some u => u :: ancestorsAlong u.children rest

/-- The ambient context with which the top-down `addCallers` pass, started at
`context`, visits the node at a path (accumulated through `childContext`). -/
def ctxAt (env : Env) : List AccountUpdate → CallerContext → List Nat → Option CallerContext
  | _, _, [] => Option.none
  | f, context, [i] =>
      match f.get? i with
      | Option.none => Option.none
      | Option.some _ => Option.some context
  | f, context, i :: rest =>
      match f.get? i with
      | Option.none => Option.none
      | Option.some u => ctxAt env u.children (childContext env u.data context) rest

end CallForest

mutual

/-- `AccountUpdate.clone(accountUpdate)`: deep copy of body and authorization
(`cloneCircuitValue` is a value copy), same `lazyAuthorization`, same
`callsType`, recursively cloned children, and — crucially — the same `id`,
`label` and delegate flag as the original. -/
def AccountUpdate.clone : AccountUpdate → AccountUpdate
  | .mk d cs => .mk d (AccountUpdate.cloneList cs)

/-- `children.accountUpdates.map(AccountUpdate.clone)`. -/
def AccountUpdate.cloneList : List AccountUpdate → List AccountUpdate
  | [] => []
  | c :: rest => AccountUpdate.clone c :: AccountUpdate.cloneList rest

end

/-- Map a node's scalar data in place (tree helper for the mutating setters). -/
def AccountUpdate.mapData (f : AUData → AUData) : AccountUpdate → AccountUpdate
  | .mk d cs => .mk (f d) cs

namespace Authorization

/-- `Authorization.setSignature`: store a finalized signature and clear the
lazy slot. -/
def setSignature (accountUpdate : AccountUpdate) (signature : F) : AccountUpdate :=
  accountUpdate.mapData fun d =>
    { d with authorization := .signature signature, lazyAuthorization := Option.none }

/-- `Authorization.setProof`: store a finalized proof and clear the lazy slot. -/
def setProof (accountUpdate : AccountUpdate) (proof : F) : AccountUpdate :=
  accountUpdate.mapData fun d =>
    { d with authorization := .proof proof, lazyAuthorization := Option.none }

/-- `Authorization.setLazySignature`: set the signed/proved flags, reset the
finalized slot to `{}`, and record the lazy-signature intent. -/
def setLazySignature (accountUpdate : AccountUpdate) (privateKey : Option Nat) :
    AccountUpdate :=
  accountUpdate.mapData fun d =>
    { d with
        body := { d.body with authorizationKind := { isSigned := true, isProved := false } }
        authorization := .empty
        lazyAuthorization := Option.some (.lazySignature privateKey) }

/-- `Authorization.setLazyProof`. -/
def setLazyProof (accountUpdate : AccountUpdate) (payload : Nat) : AccountUpdate :=
  accountUpdate.mapData fun d =>
    { d with
        body := { d.body with authorizationKind := { isSigned := false, isProved := true } }
        authorization := .empty
        lazyAuthorization := Option.some (.lazyProof payload) }

/-- `Authorization.setLazyNone`. -/
def setLazyNone (accountUpdate : AccountUpdate) : AccountUpdate :=
  accountUpdate.mapData fun d =>
    { d with
        body := { d.body with authorizationKind := { isSigned := false, isProved := false } }
        authorization := .empty
        lazyAuthorization := Option.some .lazyNone }

end Authorization

/-- The `authorization` slot holds a finalized signature or proof. -/
def hasFinalAuthorization (u : AccountUpdate) : Bool :=
  match u.data.authorization with
  | .empty => false
  | .signature _ => true
  | .proof _ => true

/-- The `lazyAuthorization` slot is set. -/
def hasLazyAuthorization (u : AccountUpdate) : Bool :=
  u.data.lazyAuthorization.isSome

/-- Exactly one of "finalized authorization" / "lazy authorization set" holds. -/
def exactlyOneAuthState (u : AccountUpdate) : Bool :=
  hasFinalAuthorization u ≠ hasLazyAuthorization u

/-- The process-wide pending transaction (`Mina.currentTransaction`): its
`sender` (the fee payer's public key, when known) and its top-level
account-update list. -/
structure CurrentTransaction where
  sender : Option PK
  accountUpdates : List AccountUpdate

/-- `AccountUpdate.getSigningInfoUnchecked(update)` for an account update in
the pending transaction `tx`: start from the account's nonce precondition
value, add 1 when this update coincides with the fee payer under the default
token, then add 1 for every predecessor (as delivered by
`forEachPredecessor`) with the same public key and token id whose
`incrementNonce` flag is set. Returns `(nonce, isSameAsFeePayer)`. -/
def getSigningInfoUnchecked (env : Env) (tx : CurrentTransaction)
    (update : AccountUpdate) : Nat × Bool :=
  let publicKey := update.body.publicKey
  let tokenId := update.body.tokenId
  let nonce0 := env.accountPreconditionNonce update.body
  let isSameAsFeePayer : Bool :=
    match tx.sender with
    | Option.some s => decide (s = publicKey) && decide (tokenId = TokenId.default)
    | Option.none => false
  let nonce1 := if isSameAsFeePayer then nonce0 + 1 else nonce0
  let nonce2 :=
    (CallForest.forEachPredecessorList tx.accountUpdates update).foldl
      (fun nonce otherUpdate =>
        if decide (otherUpdate.body.publicKey = publicKey) &&
            decide (otherUpdate.body.tokenId = tokenId) &&
            otherUpdate.body.incrementNonce then nonce + 1
        else nonce)
      nonce1
  (nonce2, isSameAsFeePayer)

/-! ### Tree membership and re-linking, as a state machine over node ids

The re-linking operations (`unlink`, `makeChildAccountUpdate`,
`attachToTransaction`) mutate owning lists and `parent` back-references
through object identity. They are modelled over a `Store`: each node id has a
children list, an optional parent back-reference and a call depth, and there
is an optional top-level list (`Mina.currentTransaction()?.accountUpdates`,
absent when no transaction is pending). -/

/-- The mutable tree-membership state. -/
structure Store where
  topLevel : Option (List Nat)
  childrenOf : Nat → List Nat
  parentOf : Nat → Option Nat
  callDepthOf : Nat → Nat

/-- `siblings.splice(i, 1)` after `findIndex` by id: remove the first
occurrence, no-op when absent. -/
def removeFirstById : List Nat → Nat → List Nat
  | [], _ => []
  | x :: xs, i => if x = i then xs else x :: removeFirstById xs i

/-- `AccountUpdate.unlink(accountUpdate)`: the owning list is the parent's
children when a parent back-reference exists, else the pending transaction's
top-level list (no-op when neither exists); remove the node from it by id.
The source's final line `accountUpdate.parent === undefined;` is a comparison
whose result is discarded — it does not clear the back-reference — so
`parentOf` is left unchanged here, faithfully to the code. -/
def Store.unlink (s : Store) (u : Nat) : Store :=
  match s.parentOf u with
  | Option.some p =>
      { s with
          childrenOf := fun x =>
            if x = p then removeFirstById (s.childrenOf p) u else s.childrenOf x }
  | Option.none =>
      match s.topLevel with
      | Option.none => s
      | Option.some tl => { s with topLevel := Option.some (removeFirstById tl u) }

/-- `AccountUpdate.attachToTransaction` (outside a smart-contract context):
push to the top-level list unless a node with the same id is already there;
no-op when no transaction is pending. -/
def Store.attachToTransaction (s : Store) (u : Nat) : Store :=
  match s.topLevel with
  | Option.none => s
  | Option.some tl =>
      if tl.contains u then s else { s with topLevel := Option.some (tl ++ [u]) }

/-- `makeChildAccountUpdate(parent, child)`: set the child's call depth; if
the child is not already among the parent's children (by id), push it there
and then `unlink` it from its previous owner; finally point the child's
`parent` back-reference at the new parent. -/
def Store.makeChildAccountUpdate (s : Store) (parent child : Nat) : Store :=
  let s :=
    { s with
        callDepthOf := fun x =>
          if x = child then s.callDepthOf parent + 1 else s.callDepthOf x }
  let wasChildAlready := (s.childrenOf parent).contains child
  let s :=
    if wasChildAlready then s
    else
      let s :=
        { s with
            childrenOf := fun x =>
              if x = parent then s.childrenOf parent ++ [child] else s.childrenOf x }
      s.unlink child
  { s with parentOf := fun x => if x = child then Option.some parent else s.parentOf x }

/-- How many owning lists (the top-level list plus the children lists of the
node ids in `domain`) contain the id `u`, with multiplicity. -/
def Store.ownerCount (s : Store) (domain : List Nat) (u : Nat) : Nat :=
  (match s.topLevel with
   | Option.none => 0
   | Option.some tl => tl.count u) +
  (domain.map fun p => (s.childrenOf p).count u).sum

/-! ### The signature pipeline -/

/-- The errors `addMissingSignatures` throws, each naming the public key of
the account whose private key is missing. -/
inductive SignatureError where
  | missingFeePayerKey (publicKey : PK)
  | missingKey (publicKey : PK)
deriving Repr, DecidableEq

/-- Private-key resolution: the explicit key carried by the lazy-signature
intent, else the first key in `additionalKeys` whose public key matches the
update's. -/
def resolveKey (env : Env) (additionalKeys : List Nat) (intentKey : Option Nat)
    (publicKey : PK) : Option Nat :=
  match intentKey with
  | Option.some k => Option.some k
  | Option.none => additionalKeys.find? fun sk => env.toPublicKey sk = publicKey

/-- The per-update step of `addMissingSignatures`: clone the update; a
non-lazy-signature update passes through (as the clone); otherwise resolve a
private key (throwing a `missingKey` error naming the update's public key
when none is found), sign the full commitment if `useFullCommitment` else the
partial commitment, and finalize via `Authorization.setSignature`. -/
def addSignature (env : Env) (additionalKeys : List Nat)
    (commitment fullCommitment : F) (accountUpdate : AccountUpdate) :
    Except SignatureError AccountUpdate :=
  let accountUpdate := accountUpdate.clone
  match accountUpdate.data.lazyAuthorization with
  | Option.some (.lazySignature intentKey) =>
      match resolveKey env additionalKeys intentKey accountUpdate.body.publicKey with
      | Option.none => .error (.missingKey accountUpdate.body.publicKey)
      | Option.some privateKey =>
          let transactionCommitment :=
            if accountUpdate.body.useFullCommitment then fullCommitment else commitment
          .ok (Authorization.setSignature accountUpdate
            (env.signFieldElement transactionCommitment privateKey))
  | _ => .ok accountUpdate

/-- The fee-payer step of `addMissingSignatures`: pass through when no lazy
signature is pending; otherwise resolve a key (error naming the fee payer's
public key) and sign the full commitment — always the full one. -/
def addFeePayerSignature (env : Env) (additionalKeys : List Nat)
    (fullCommitment : F) (accountUpdate : FeePayerUnsigned) :
    Except SignatureError FeePayerSigned :=
  match accountUpdate.lazyAuthorization with
  | Option.none => .ok { body := accountUpdate.body, authorization := accountUpdate.authorization }
  | Option.some intentKey =>
      match resolveKey env additionalKeys intentKey accountUpdate.body.publicKey with
      | Option.none => .error (.missingFeePayerKey accountUpdate.body.publicKey)
      | Option.some privateKey =>
          .ok { body := accountUpdate.body
                authorization := env.signFieldElement fullCommitment privateKey }

/-- Left-to-right traversal of the update list by a fallible step: the
semantics of `accountUpdates.map(addSignature)` when `addSignature` may
throw — the first error aborts the whole run. -/
def traverseExcept (f : AccountUpdate → Except SignatureError AccountUpdate) :
    List AccountUpdate → Except SignatureError (List AccountUpdate)
  | [] => .ok []
  | u :: rest =>
      match f u with
      | .error e => .error e
      | .ok v =>
          match traverseExcept f rest with
          | .error e => .error e
          | .ok vs => .ok (v :: vs)

/-- The result type of `addMissingSignatures` (`ZkappCommandSigned`). -/
structure ZkappCommandSigned where
  feePayer : FeePayerSigned
  accountUpdates : List AccountUpdate
  memo : String

/-- `addMissingSignatures(zkappCommand, additionalKeys)`: compute the two
transaction commitments once from the input command, sign the fee payer
against the full commitment, and map the per-update signing step over the
account updates in order (the first missing key aborts the whole run, as a
thrown error does). -/
def addMissingSignatures (env : Env) (zkappCommand : ZkappCommand)
    (additionalKeys : List Nat) : Except SignatureError ZkappCommandSigned :=
  let commitment := (env.transactionCommitments zkappCommand).1
  let fullCommitment := (env.transactionCommitments zkappCommand).2
  match addFeePayerSignature env additionalKeys fullCommitment zkappCommand.feePayer with
  | .error e => .error e
  | .ok feePayer =>
      match
        traverseExcept (addSignature env additionalKeys commitment fullCommitment)
          zkappCommand.accountUpdates with
      | .error e => .error e
      | .ok accountUpdates => .ok { feePayer, accountUpdates, memo := zkappCommand.memo }

/-! ### Specification-side counting and flattening functions (for the
flattening claims). These follow the spec's words, to be compared with
`CallForest.toFlatList`. -/

/-- N: the total number of nodes in a forest. -/
def totalCount : List AccountUpdate → Nat
  | [] => 0
  | .mk _ cs :: rest => 1 + totalCount cs + totalCount rest

/-- M: the number of dummy nodes (empty public key) in a forest. -/
def dummyCount : List AccountUpdate → Nat
  | [] => 0
  | .mk d cs :: rest =>
      (if (AccountUpdate.mk d cs).isDummy then 1 else 0) + dummyCount cs + dummyCount rest

/-- The number of nodes that are dummy or have a dummy ancestor: a dummy
node's entire subtree counts, a non-dummy node contributes only what its
children drop. -/
def droppedCount : List AccountUpdate → Nat
  | [] => 0
  | .mk d cs :: rest =>
      (if (AccountUpdate.mk d cs).isDummy then 1 + totalCount cs else droppedCount cs) +
        droppedCount rest

/-- The spec-side flattening: the `(id, ancestor count)` pairs of the nodes
that are non-dummy and have no dummy ancestor, in depth-first pre-order,
with the ancestor count relative to a start depth. -/
def keptWithDepth : List AccountUpdate → Nat → List (Nat × Nat)
  | [], _ => []
  | .mk d cs :: rest, depth =>
      if (AccountUpdate.mk d cs).isDummy then keptWithDepth rest depth
      else (d.id, depth) :: (keptWithDepth cs (depth + 1) ++ keptWithDepth rest depth)

/-- Replace a node's child list (used to build concrete test forests). -/
def withChildren (u : AccountUpdate) (cs : List AccountUpdate) : AccountUpdate :=
  .mk u.data cs

/-- A concrete instantiation of the external collaborators, used to evaluate
the universally quantified theorems on concrete inputs. -/
def sampleEnv : Env :=
  { hashWithDomain := fun s l => s.length + 31 * l.foldl (fun a x => 10 * a + x + 1) 7
    hashAccountUpdate := fun u => u.id + 100
    customTokenId := fun pk t => 1000 + pk * 37 + t
    toPublicKey := fun sk => sk + 1
    signFieldElement := fun c k => c * 1000003 + k
    transactionCommitments := fun cmd => (cmd.accountUpdates.length + 11, cmd.accountUpdates.length + 12)
    accountPreconditionNonce := fun b => b.publicKey % 7 }

/-- Spec-side: the update coincides with the transaction's fee-payer sender
and lives on the default token (a fee payer always pre-increments). -/
def sameAsFeePayer (tx : CurrentTransaction) (u : AccountUpdate) : Bool :=
  match tx.sender with
  | Option.some s => decide (s = u.body.publicKey) && decide (u.body.tokenId = TokenId.default)
  | Option.none => false

/-- Spec-side: the predecessor matches the update's account and increments
its nonce. -/
def incrementsSameAccount (u v : AccountUpdate) : Bool :=
  decide (v.body.publicKey = u.body.publicKey) &&
    decide (v.body.tokenId = u.body.tokenId) && v.body.incrementNonce

/-- A concrete tree-membership state: node 3 is a child of node 1 (with a
consistent `parent` back-reference), node 2 has no children, the pending
transaction's top-level list is empty. -/
def c4Start : Store :=
  { topLevel := Option.some []
    childrenOf := fun x => if x = 1 then [3] else []
    parentOf := fun x => if x = 3 then Option.some 1 else Option.none
    callDepthOf := fun _ => 0 }

/-- Run, from `c4Start`: `AccountUpdate.unlink(node 3)`, then
`AccountUpdate.attachToTransaction(node 3)`, then
`approve`'s `makeChildAccountUpdate(node 2, node 3)`. -/
def c4Final : Store :=
  ((c4Start.unlink 3).attachToTransaction 3).makeChildAccountUpdate 2 3

/-- A concrete fee payer with a lazy-signature intent carrying an explicit
private key. -/
def c6FeePayer : FeePayerUnsigned :=
  { body := { publicKey := 9, nonce := 0 }
    authorization := 0
    lazyAuthorization := Option.some (Option.some 42) }

/-- A concrete update with a lazy-signature intent and no explicit key (its
key must come from `additionalKeys`). -/
def c6U1 : AccountUpdate :=
  Authorization.setLazySignature (AccountUpdate.new 11 (Body.keepAll 7)) Option.none

/-- A concrete update with no authorization intent. -/
def c6U2 : AccountUpdate := AccountUpdate.new 12 (Body.keepAll 8)

/-- A concrete two-update command. -/
def c6Cmd : ZkappCommand :=
  { feePayer := c6FeePayer, accountUpdates := [c6U1, c6U2], memo := "hello" }

/-- What `addMissingSignatures sampleEnv c6Cmd [6]` produces: the fee payer
signs the full commitment (14) with its explicit key 42, the first update
signs the partial commitment (13) with the looked-up key 6, the second
passes through. -/
def c6Res : ZkappCommandSigned :=
  { feePayer := { body := c6FeePayer.body, authorization := sampleEnv.signFieldElement 14 42 }
    accountUpdates := [Authorization.setSignature c6U1 (sampleEnv.signFieldElement 13 6), c6U2]
    memo := "hello" }

/-- A concrete delegate-call node (no children). -/
def c7Delegate : AccountUpdate :=
  AccountUpdate.mk { (AccountUpdate.new 3 (Body.keepAll 6)).data with isDelegateCall := true } []

/-- A concrete non-delegate leaf. -/
def c7B : AccountUpdate := AccountUpdate.new 2 (Body.keepAll 4)

/-- A concrete root whose children are the leaf and the delegate node. -/
def c7Root : AccountUpdate := withChildren (AccountUpdate.new 1 (Body.keepAll 2)) [c7B, c7Delegate]

/-- A concrete one-root forest. -/
def c7Forest : List AccountUpdate := [c7Root]

/-! ## Theorems -/

mutual

/-- A clone is value-equal to the original (the copy is deep and faithful). -/
theorem AccountUpdate.clone_eq : ∀ u : AccountUpdate, u.clone = u
  | .mk d cs => by rw [AccountUpdate.clone, AccountUpdate.cloneList_eq]

/-- Cloning a child list is the identity, value-wise. -/
theorem AccountUpdate.cloneList_eq : ∀ l : List AccountUpdate, AccountUpdate.cloneList l = l
  | [] => rfl
  | c :: rest => by rw [AccountUpdate.cloneList, AccountUpdate.clone_eq, AccountUpdate.cloneList_eq]

end

/-- C8: `Permissions.fromString` returns the corresponding `Permission` for
exactly the five recognized strings `None`, `Either`, `Proof`, `Signature`
and `Impossible`, and throws immediately (an error naming the input) on every
other string. -/
theorem C8_fromString_recognized :
    Permissions.fromString "None" = Except.ok Permission.none ∧
    Permissions.fromString "Either" = Except.ok Permission.proofOrSignature ∧
    Permissions.fromString "Proof" = Except.ok Permission.proof ∧
    Permissions.fromString "Signature" = Except.ok Permission.signature ∧
    Permissions.fromString "Impossible" = Except.ok Permission.impossible ∧
    ∀ s : String, s ∉ recognizedPermissionStrings →
      Permissions.fromString s =
        Except.error ("Cannot parse invalid permission. " ++ s ++ " does not exist.") := by
  refine ⟨rfl, rfl, rfl, rfl, rfl, ?_⟩
  intro s hs
  simp only [recognizedPermissionStrings, List.mem_cons, List.not_mem_nil, or_false] at hs
  push_neg at hs
  obtain ⟨h1, h2, h3, h4, h5⟩ := hs
  simp [Permissions.fromString, h1, h2, h3, h4, h5]

/-- Witness for C8 at the concrete unrecognized string `"Maybe"`. -/
theorem C8_fromString_witness :
    "Maybe" ∉ recognizedPermissionStrings ∧
    Permissions.fromString "Maybe" =
      Except.error "Cannot parse invalid permission. Maybe does not exist." :=
  ⟨by decide, C8_fromString_recognized.2.2.2.2.2 "Maybe" (by decide)⟩

/-- C9: `AccountUpdate.clone` keeps the original's `id`, so clone and
original are indistinguishable to the id-based operations: the target of
`forEachPredecessor`, and the id-membership checks used by
`attachToTransaction` / `makeChildAccountUpdate`. -/
theorem C9_clone_preserves_id :
    ∀ (a : AccountUpdate) (l : List AccountUpdate),
      a.clone.id = a.id ∧
      CallForest.forEachPredecessorList l a.clone = CallForest.forEachPredecessorList l a ∧
      (l.map AccountUpdate.id).contains a.clone.id = (l.map AccountUpdate.id).contains a.id := by
  intro a l
  have hid : a.clone.id = a.id := by
    cases a with
    | mk d cs => rw [AccountUpdate.clone]; rfl
  exact ⟨hid, by rw [CallForest.forEachPredecessorList, hid, CallForest.forEachPredecessorList],
    by rw [hid]⟩

/-- Flattening distributes over forest concatenation. -/
theorem toFlatList_append (a b : List AccountUpdate) (depth : Nat) :
    CallForest.toFlatList (a ++ b) depth =
      CallForest.toFlatList a depth ++ CallForest.toFlatList b depth := by
  induction a with
  | nil => rw [List.nil_append, CallForest.toFlatList, List.nil_append]
  | cons u rest ih =>
      cases u with
      | mk d cs =>
          rw [List.cons_append, CallForest.toFlatList, CallForest.toFlatList]
          split
          · exact ih
          · rw [ih]; simp

/-- C10: `toFlatList` never recurses into a dummy node's children: a dummy
root in the forest contributes nothing to the flattened list — its entire
subtree, including non-dummy descendants, is absent. -/
theorem C10_dummy_subtree_dropped (f₁ f₂ : List AccountUpdate) (u : AccountUpdate)
    (depth : Nat) (h : u.isDummy = true) :
    CallForest.toFlatList (f₁ ++ u :: f₂) depth =
      CallForest.toFlatList f₁ depth ++ CallForest.toFlatList f₂ depth := by
  rw [toFlatList_append]
  cases u with
  | mk d cs => rw [CallForest.toFlatList, if_pos h]

/-- Witness for C10: a dummy root with a non-dummy child, between two
non-dummy roots; the dummy's subtree vanishes from the flattened list. -/
theorem C10_dummy_subtree_dropped_witness :
    (withChildren (AccountUpdate.new 1 (Body.keepAll 0))
        [AccountUpdate.new 2 (Body.keepAll 5)]).isDummy = true ∧
    CallForest.toFlatList
        ([AccountUpdate.new 3 (Body.keepAll 7)] ++
          withChildren (AccountUpdate.new 1 (Body.keepAll 0))
              [AccountUpdate.new 2 (Body.keepAll 5)] ::
            [AccountUpdate.new 4 (Body.keepAll 9)]) 0 =
      CallForest.toFlatList [AccountUpdate.new 3 (Body.keepAll 7)] 0 ++
        CallForest.toFlatList [AccountUpdate.new 4 (Body.keepAll 9)] 0 :=
  ⟨rfl,
    C10_dummy_subtree_dropped [AccountUpdate.new 3 (Body.keepAll 7)]
      [AccountUpdate.new 4 (Body.keepAll 9)]
      (withChildren (AccountUpdate.new 1 (Body.keepAll 0))
        [AccountUpdate.new 2 (Body.keepAll 5)]) 0 rfl⟩

/-- The `(id, callDepth)` view of the flattened list is the spec-side
`keptWithDepth` traversal. -/
theorem toFlatList_keptWithDepth (f : List AccountUpdate) (depth : Nat) :
    (CallForest.toFlatList f depth).map (fun u => (u.id, u.body.callDepth)) =
      keptWithDepth f depth := by
  induction f, depth using CallForest.toFlatList.induct with
  | case1 depth => rw [CallForest.toFlatList, keptWithDepth]; rfl
  | case2 d cs rest depth hdummy ih =>
      rw [CallForest.toFlatList, if_pos hdummy, keptWithDepth, if_pos hdummy, ih]
  | case3 d cs rest depth hdummy ih1 ih2 =>
      rw [CallForest.toFlatList, if_neg hdummy, keptWithDepth, if_neg hdummy]
      simp only [List.map_cons, List.map_append, ih1, ih2]
      rfl

/-- The flattened list drops exactly the nodes that are dummy or below a
dummy: its length plus `droppedCount` is the total node count. -/
theorem toFlatList_length (f : List AccountUpdate) (depth : Nat) :
    (CallForest.toFlatList f depth).length + droppedCount f = totalCount f := by
  induction f, depth using CallForest.toFlatList.induct with
  | case1 depth => rw [CallForest.toFlatList, droppedCount, totalCount]; rfl
  | case2 d cs rest depth hdummy ih =>
      rw [CallForest.toFlatList, if_pos hdummy, droppedCount, if_pos hdummy, totalCount]
      omega
  | case3 d cs rest depth hdummy ih1 ih2 =>
      rw [CallForest.toFlatList, if_neg hdummy, droppedCount, if_neg hdummy, totalCount]
      simp only [List.length_cons, List.length_append]
      omega

/-- C1 (counterexample): a forest of N = 2 nodes with M = 1 dummy node — a
dummy root with one non-dummy child — flattens to 0 nodes, not N − M = 1. -/
theorem C1_toFlatList_counterexample :
    (CallForest.toFlatList
        [withChildren (AccountUpdate.new 1 (Body.keepAll 0))
          [AccountUpdate.new 2 (Body.keepAll 5)]] 0).length = 0 ∧
    totalCount
        [withChildren (AccountUpdate.new 1 (Body.keepAll 0))
          [AccountUpdate.new 2 (Body.keepAll 5)]] = 2 ∧
    dummyCount
        [withChildren (AccountUpdate.new 1 (Body.keepAll 0))
          [AccountUpdate.new 2 (Body.keepAll 5)]] = 1 ∧
    (CallForest.toFlatList
        [withChildren (AccountUpdate.new 1 (Body.keepAll 0))
          [AccountUpdate.new 2 (Body.keepAll 5)]] 0).length ≠
      totalCount
          [withChildren (AccountUpdate.new 1 (Body.keepAll 0))
            [AccountUpdate.new 2 (Body.keepAll 5)]] -
        dummyCount
          [withChildren (AccountUpdate.new 1 (Body.keepAll 0))
            [AccountUpdate.new 2 (Body.keepAll 5)]] := by
  refine ⟨?_, ?_, ?_, ?_⟩ <;>
    simp [CallForest.toFlatList, totalCount, dummyCount, withChildren, AccountUpdate.new,
      AccountUpdate.isDummy, AccountUpdate.body, AccountUpdate.data, Body.keepAll,
      emptyPublicKey]

/-- C1 (amended): `toFlatList(forest, depth)` returns, in depth-first
pre-order, exactly the nodes that are non-dummy and have no dummy ancestor
(N minus the count of nodes that are dummy or below a dummy), each with
`body.callDepth` set to its true ancestor count. -/
theorem C1_toFlatList_amended (f : List AccountUpdate) (depth : Nat) :
    (CallForest.toFlatList f depth).map (fun u => (u.id, u.body.callDepth)) =
      keptWithDepth f depth ∧
    (CallForest.toFlatList f depth).length + droppedCount f = totalCount f :=
  ⟨toFlatList_keptWithDepth f depth, toFlatList_length f depth⟩

/-- Out of the circuit, `hashChildren` computes `hashChildrenBase` whatever
the `callsType` is (`Witness` runs the thunk, `Equals` skips its in-circuit
assertion). -/
theorem hashChildren_eq_base (env : Env) (u : AccountUpdate) :
    CallForest.hashChildren env u = CallForest.hashChildrenBase env u := by
  rw [CallForest.hashChildren]
  split <;> rfl

/-- The structural recursion of `hashChildrenList` is the source's left fold
over the reversed child list. -/
theorem hashChildrenList_eq_reverse_foldl (env : Env) (cs : List AccountUpdate) :
    CallForest.hashChildrenList env cs =
      cs.reverse.foldl
        (fun stackHash child =>
          if child.isDummy then stackHash
          else
            env.hashWithDomain accountUpdateCons
              [env.hashWithDomain accountUpdateNode
                [env.hashAccountUpdate child, CallForest.hashChildren env child],
                stackHash])
        CallForest.emptyHash := by
  induction cs with
  | nil => rw [CallForest.hashChildrenList]; rfl
  | cons c rest ih =>
      rw [CallForest.hashChildrenList, List.reverse_cons, List.foldl_append, ← ih]
      rfl

/-- C2: `hashChildrenBase` on a node with no children is `emptyHash()`; on a
node with a single non-dummy child of `callsType` `None` and no children of
its own it is `H(cons, [H(node, [hash(child), emptyHash()]), emptyHash()])`;
and in general it folds the children in reverse order through
`nodeHash = H(node, [hash(child), hashChildren(child)])`,
`stackHash = H(cons, [nodeHash, stackHash])` seeded with `emptyHash()`, a
dummy child leaving the stack hash unchanged. -/
theorem C2_hashChildrenBase_spec (env : Env) (d : AUData) (c : AccountUpdate)
    (h1 : c.isDummy = false) (h2 : c.data.callsType = CallsType.none)
    (h3 : c.children = []) :
    (∀ d0 : AUData, CallForest.hashChildrenBase env (.mk d0 []) = CallForest.emptyHash) ∧
    CallForest.hashChildrenBase env (.mk d [c]) =
      env.hashWithDomain accountUpdateCons
        [env.hashWithDomain accountUpdateNode
          [env.hashAccountUpdate c, CallForest.emptyHash],
          CallForest.emptyHash] ∧
    (∀ (d0 : AUData) (cs : List AccountUpdate),
      CallForest.hashChildrenBase env (.mk d0 cs) =
        cs.reverse.foldl
          (fun stackHash child =>
            if child.isDummy then stackHash
            else
              env.hashWithDomain accountUpdateCons
                [env.hashWithDomain accountUpdateNode
                  [env.hashAccountUpdate child, CallForest.hashChildren env child],
                  stackHash])
          CallForest.emptyHash) := by
  have hbase : ∀ d0 : AUData, CallForest.hashChildrenBase env (.mk d0 []) =
      CallForest.emptyHash := by
    intro d0
    rw [CallForest.hashChildrenBase, CallForest.hashChildrenList]
  refine ⟨hbase, ?_, ?_⟩
  · have hc : CallForest.hashChildren env c = CallForest.emptyHash := by
      rw [hashChildren_eq_base]
      cases c with
      | mk dc cc =>
          simp only [AccountUpdate.children] at h3
          subst h3
          exact hbase dc
    rw [CallForest.hashChildrenBase, CallForest.hashChildrenList, CallForest.hashChildrenList]
    simp only [hc, h1]
    rfl
  · intro d0 cs
    rw [CallForest.hashChildrenBase]
    exact hashChildrenList_eq_reverse_foldl env cs

/-- Witness for C2 at a concrete environment, parent data and child. -/
theorem C2_hashChildrenBase_spec_witness :
    ((AccountUpdate.new 2 (Body.keepAll 5)).isDummy = false ∧
      (AccountUpdate.new 2 (Body.keepAll 5)).data.callsType = CallsType.none ∧
      (AccountUpdate.new 2 (Body.keepAll 5)).children = []) ∧
    ((∀ d0 : AUData, CallForest.hashChildrenBase sampleEnv (.mk d0 []) = CallForest.emptyHash) ∧
      CallForest.hashChildrenBase sampleEnv
          (.mk (AccountUpdate.new 1 (Body.keepAll 3)).data [AccountUpdate.new 2 (Body.keepAll 5)]) =
        sampleEnv.hashWithDomain accountUpdateCons
          [sampleEnv.hashWithDomain accountUpdateNode
            [sampleEnv.hashAccountUpdate (AccountUpdate.new 2 (Body.keepAll 5)),
              CallForest.emptyHash],
            CallForest.emptyHash] ∧
      (∀ (d0 : AUData) (cs : List AccountUpdate),
        CallForest.hashChildrenBase sampleEnv (.mk d0 cs) =
          cs.reverse.foldl
            (fun stackHash child =>
              if child.isDummy then stackHash
              else
                sampleEnv.hashWithDomain accountUpdateCons
                  [sampleEnv.hashWithDomain accountUpdateNode
                    [sampleEnv.hashAccountUpdate child,
                      CallForest.hashChildren sampleEnv child],
                    stackHash])
            CallForest.emptyHash)) :=
  ⟨⟨rfl, rfl, rfl⟩,
    C2_hashChildrenBase_spec sampleEnv (AccountUpdate.new 1 (Body.keepAll 3)).data
      (AccountUpdate.new 2 (Body.keepAll 5)) rfl rfl rfl⟩

/-- Once the `isPredecessor` flag is cleared it stays cleared and nothing
more is collected. -/
theorem foldl_predecessorStep_false (tid : Nat) (l : List AccountUpdate)
    (acc : List AccountUpdate) :
    l.foldl (CallForest.predecessorStep tid) (false, acc) = (false, acc) := by
  induction l with
  | nil => rfl
  | cons c rest ih =>
      rw [List.foldl_cons]
      have hstep : CallForest.predecessorStep tid (false, acc) c = (false, acc) := by
        rw [CallForest.predecessorStep]
        simp
      rw [hstep, ih]

/-- While the flag is set, the flag-carrying fold collects exactly the nodes
strictly before the first id match. -/
theorem foldl_predecessorStep_true (tid : Nat) (l : List AccountUpdate)
    (acc : List AccountUpdate) :
    (l.foldl (CallForest.predecessorStep tid) (true, acc)).2 =
      acc ++ l.takeWhile (fun v => v.id != tid) := by
  induction l generalizing acc with
  | nil => simp
  | cons c rest ih =>
      rw [List.foldl_cons, List.takeWhile_cons]
      by_cases h : c.id = tid
      · have hstep : CallForest.predecessorStep tid (true, acc) c = (false, acc) := by
          rw [CallForest.predecessorStep]
          simp [h]
        rw [hstep, foldl_predecessorStep_false]
        simp [h]
      · have hstep : CallForest.predecessorStep tid (true, acc) c = (true, acc ++ [c]) := by
          rw [CallForest.predecessorStep]
          simp [h]
        rw [hstep, ih]
        simp [h]

/-- `forEachPredecessor` delivers exactly the prefix of the pre-order visit
sequence strictly before the target (matched by id). -/
theorem forEachPredecessorList_eq_takeWhile (l : List AccountUpdate) (t : AccountUpdate) :
    CallForest.forEachPredecessorList l t =
      (CallForest.forEachList l).takeWhile (fun v => v.id != t.id) := by
  rw [CallForest.forEachPredecessorList, foldl_predecessorStep_true]
  rfl

/-- Counting via a conditional fold is `countP`. -/
theorem foldl_count (P : AccountUpdate → Bool) (l : List AccountUpdate) (n : Nat) :
    l.foldl (fun m v => if P v then m + 1 else m) n = n + l.countP P := by
  induction l generalizing n with
  | nil => simp
  | cons c rest ih =>
      rw [List.foldl_cons, List.countP_cons, ih]
      by_cases h : P c = true
      · simp only [h, if_true]
        omega
      · simp only [h, if_false, Bool.false_eq_true]
        omega

/-- C3: the resolved signing nonce of an account update in a pending
transaction is the account's nonce precondition value, plus 1 when the
update coincides with the fee-payer sender under the default token, plus 1
for every strict pre-order predecessor matching the update's
`(publicKey, tokenId)` with `incrementNonce` set; and `forEachPredecessor`
invokes its callback on exactly the nodes strictly before the target in
pre-order, matched by id. -/
theorem C3_getSigningInfoUnchecked_spec (env : Env) (tx : CurrentTransaction)
    (u : AccountUpdate) :
    (∀ (l : List AccountUpdate) (t : AccountUpdate),
      CallForest.forEachPredecessorList l t =
        (CallForest.forEachList l).takeWhile (fun v => v.id != t.id)) ∧
    getSigningInfoUnchecked env tx u =
      (env.accountPreconditionNonce u.body +
        (if sameAsFeePayer tx u then 1 else 0) +
        ((CallForest.forEachList tx.accountUpdates).takeWhile
            (fun v => v.id != u.id)).countP (incrementsSameAccount u),
       sameAsFeePayer tx u) := by
  refine ⟨forEachPredecessorList_eq_takeWhile, ?_⟩
  rw [getSigningInfoUnchecked]
  simp only [forEachPredecessorList_eq_takeWhile, foldl_count]
  have hsame :
      (match tx.sender with
        | Option.some s =>
            decide (s = u.body.publicKey) && decide (u.body.tokenId = TokenId.default)
        | Option.none => false) = sameAsFeePayer tx u := by
    rw [sameAsFeePayer]
  rw [hsame]
  have hcount :
      (fun v => decide (v.body.publicKey = u.body.publicKey) &&
          decide (v.body.tokenId = u.body.tokenId) && v.body.incrementNonce) =
        incrementsSameAccount u := by
    funext v
    rw [incrementsSameAccount]
  rw [hcount]
  by_cases h : sameAsFeePayer tx u = true
  · simp only [h, if_true]
  · simp only [h, if_false, Bool.false_eq_true, Nat.add_zero]

/-- C5 (counterexample): a freshly constructed account update
(`defaultAccountUpdate`, i.e. `new AccountUpdate(Body.keepAll(pk))`) has the
empty `{}` authorization and no `lazyAuthorization` — neither side of the
claimed "exactly one" disjunction holds. -/
theorem C5_exactlyOne_counterexample :
    hasFinalAuthorization (AccountUpdate.defaultAccountUpdate 1 7) = false ∧
    hasLazyAuthorization (AccountUpdate.defaultAccountUpdate 1 7) = false ∧
    exactlyOneAuthState (AccountUpdate.defaultAccountUpdate 1 7) = false := by
  refine ⟨rfl, rfl, ?_⟩
  decide

/-- C5 (amended): at most one of "finalized authorization" /
"lazy authorization" ever holds: every `Authorization` setter establishes
exactly one of them (`setSignature`/`setProof` clear the lazy slot,
`setLazySignature`/`setLazyProof`/`setLazyNone` reset the finalized slot to
empty), while a freshly constructed update holds neither. -/
theorem C5_authorization_amended :
    ∀ (u : AccountUpdate) (s p : F) (k : Option Nat) (payload : Nat) (i : Nat) (b : Body),
      exactlyOneAuthState (Authorization.setSignature u s) = true ∧
      exactlyOneAuthState (Authorization.setProof u p) = true ∧
      exactlyOneAuthState (Authorization.setLazySignature u k) = true ∧
      exactlyOneAuthState (Authorization.setLazyProof u payload) = true ∧
      exactlyOneAuthState (Authorization.setLazyNone u) = true ∧
      (Authorization.setSignature u s).data.lazyAuthorization = Option.none ∧
      (Authorization.setProof u p).data.lazyAuthorization = Option.none ∧
      (Authorization.setLazySignature u k).data.authorization = Control.empty ∧
      (Authorization.setLazyProof u payload).data.authorization = Control.empty ∧
      (Authorization.setLazyNone u).data.authorization = Control.empty ∧
      hasFinalAuthorization (AccountUpdate.new i b) = false ∧
      hasLazyAuthorization (AccountUpdate.new i b) = false ∧
      exactlyOneAuthState (AccountUpdate.new i b) = false := by
  intro u s p k payload i b
  cases u with
  | mk d cs =>
      exact ⟨rfl, rfl, rfl, rfl, rfl, rfl, rfl, rfl, rfl, rfl, rfl, rfl, rfl⟩

/-- C4: evaluating the code at the failing sequence. Because `unlink`'s last
line `accountUpdate.parent === undefined;` compares instead of assigning,
node 3 keeps its stale back-reference to node 1 after being unlinked; after
`attachToTransaction` puts it in the top-level list,
`makeChildAccountUpdate(2, 3)` appends it to node 2's children and its
`unlink` looks only in stale parent 1's (empty) children — leaving node 3 in
two owning lists at once, violating the claimed invariant. -/
theorem C4_unlink_double_ownership :
    c4Final.topLevel = Option.some [3] ∧
    c4Final.childrenOf 2 = [3] ∧
    c4Final.parentOf 3 = Option.some 2 ∧
    c4Final.ownerCount [1, 2, 3] 3 = 2 := by
  refine ⟨?_, ?_, ?_, ?_⟩ <;> decide

/-- `addSignature`, with the (value-identity) clone rewritten away. -/
theorem addSignature_eq (env : Env) (keys : List Nat) (c fc : F) (u : AccountUpdate) :
    addSignature env keys c fc u =
      match u.data.lazyAuthorization with
      | Option.some (.lazySignature intentKey) =>
          match resolveKey env keys intentKey u.body.publicKey with
          | Option.none => .error (.missingKey u.body.publicKey)
          | Option.some privateKey =>
              .ok (Authorization.setSignature u
                (env.signFieldElement (if u.body.useFullCommitment then fc else c) privateKey))
      | _ => .ok u := by
  rw [addSignature, AccountUpdate.clone_eq]

/-- A successful traversal maps index-wise: same length, and each output
element is the successful image of the input element at the same index. -/
theorem traverseExcept_ok (f : AccountUpdate → Except SignatureError AccountUpdate) :
    ∀ (l r : List AccountUpdate), traverseExcept f l = Except.ok r →
      r.length = l.length ∧
      ∀ i u, l.get? i = Option.some u → ∃ v, f u = Except.ok v ∧ r.get? i = Option.some v := by
  intro l
  induction l with
  | nil =>
      intro r h
      rw [traverseExcept] at h
      cases h
      exact ⟨rfl, by intro i u h; simp at h⟩
  | cons a rest ih =>
      intro r h
      rw [traverseExcept] at h
      cases hfa : f a with
      | error e => rw [hfa] at h; simp at h
      | ok v =>
          rw [hfa] at h
          cases hrest : traverseExcept f rest with
          | error e => rw [hrest] at h; simp at h
          | ok vs =>
              rw [hrest] at h
              simp only [Except.ok.injEq] at h
              subst h
              obtain ⟨hlen, hget⟩ := ih vs hrest
              refine ⟨by simp [hlen], ?_⟩
              intro i u hu
              cases i with
              | zero =>
                  simp at hu
                  subst hu
                  exact ⟨v, hfa, rfl⟩
              | succ j =>
                  simp at hu
                  obtain ⟨w, hw, hw'⟩ := hget j u (by simpa using hu)
                  exact ⟨w, hw, by simpa using hw'⟩

/-- A failed traversal fails at some element of the list. -/
theorem traverseExcept_error (f : AccountUpdate → Except SignatureError AccountUpdate) :
    ∀ (l : List AccountUpdate) (e : SignatureError), traverseExcept f l = Except.error e →
      ∃ u, u ∈ l ∧ f u = Except.error e := by
  intro l
  induction l with
  | nil => intro e h; rw [traverseExcept] at h; cases h
  | cons a rest ih =>
      intro e h
      rw [traverseExcept] at h
      cases hfa : f a with
      | error e' =>
          rw [hfa] at h
          simp only [Except.error.injEq] at h
          subst h
          exact ⟨a, List.mem_cons_self a rest, hfa⟩
      | ok v =>
          rw [hfa] at h
          cases hrest : traverseExcept f rest with
          | error e' =>
              rw [hrest] at h
              simp only [Except.error.injEq] at h
              subst h
              obtain ⟨u, hu, hfu⟩ := ih e' hrest
              exact ⟨u, List.mem_cons_of_mem a hu, hfu⟩
          | ok vs => rw [hrest] at h; simp at h

/-- A successful fee-payer step keeps the body; it passes the existing
authorization through when no lazy signature is pending, and otherwise signs
the full commitment with the resolved key. -/
theorem addFeePayerSignature_ok (env : Env) (keys : List Nat) (fc : F)
    (fp : FeePayerUnsigned) (out : FeePayerSigned)
    (h : addFeePayerSignature env keys fc fp = Except.ok out) :
    out.body = fp.body ∧
    (fp.lazyAuthorization = Option.none → out.authorization = fp.authorization) ∧
    (∀ ik, fp.lazyAuthorization = Option.some ik →
      ∃ sk, resolveKey env keys ik fp.body.publicKey = Option.some sk ∧
        out.authorization = env.signFieldElement fc sk) := by
  rw [addFeePayerSignature] at h
  split at h
  next hlazy =>
    injection h with h
    subst h
    refine ⟨rfl, fun _ => rfl, ?_⟩
    intro ik hik
    rw [hlazy] at hik
    cases hik
  next ik hlazy =>
    split at h
    next hres => cases h
    next sk hres =>
      injection h with h
      subst h
      refine ⟨rfl, ?_, ?_⟩
      · intro hnone; rw [hlazy] at hnone; cases hnone
      · intro ik' hik
        rw [hlazy, Option.some.injEq] at hik
        subst hik
        exact ⟨sk, hres, rfl⟩

/-- A failing fee-payer step is a missing-key error naming the fee payer's
public key, with a pending lazy signature and no resolvable key. -/
theorem addFeePayerSignature_error (env : Env) (keys : List Nat) (fc : F)
    (fp : FeePayerUnsigned) (e : SignatureError)
    (h : addFeePayerSignature env keys fc fp = Except.error e) :
    ∃ ik, e = SignatureError.missingFeePayerKey fp.body.publicKey ∧
      fp.lazyAuthorization = Option.some ik ∧
      resolveKey env keys ik fp.body.publicKey = Option.none := by
  rw [addFeePayerSignature] at h
  split at h
  next hlazy => cases h
  next ik hlazy =>
    split at h
    next hres =>
      injection h with h
      subst h
      exact ⟨ik, rfl, hlazy, hres⟩
    next sk hres => cases h

/-- An update with no lazy-signature intent passes through `addSignature`
unchanged (its clone is value-equal to it). -/
theorem addSignature_pass (env : Env) (keys : List Nat) (c fc : F) (u : AccountUpdate)
    (h : ∀ ik, ¬ u.data.lazyAuthorization = Option.some (.lazySignature ik)) :
    addSignature env keys c fc u = Except.ok u := by
  rw [addSignature_eq]
  cases hlazy : u.data.lazyAuthorization with
  | none => rfl
  | some la =>
      cases la with
      | lazySignature ik => exact absurd hlazy (h ik)
      | lazyProof payload => rfl
      | lazyNone => rfl

/-- A failing `addSignature` is a missing-key error naming the update's
public key, for a pending lazy signature with no resolvable key. -/
theorem addSignature_error (env : Env) (keys : List Nat) (c fc : F) (u : AccountUpdate)
    (e : SignatureError) (h : addSignature env keys c fc u = Except.error e) :
    ∃ ik, e = SignatureError.missingKey u.body.publicKey ∧
      u.data.lazyAuthorization = Option.some (.lazySignature ik) ∧
      resolveKey env keys ik u.body.publicKey = Option.none := by
  rw [addSignature_eq] at h
  split at h
  next ik hlazy =>
    split at h
    next hres =>
      injection h with h
      subst h
      exact ⟨ik, rfl, hlazy, hres⟩
    next sk hres => cases h
  next other hother => cases h

/-- C6: `addMissingSignatures` computes the two commitments once from the
input command; every lazy-signature update is finalized with a signature by
the resolved key (intent key, else `extraKeys` lookup by public key) over the
full commitment iff `useFullCommitment`, else the partial one; the fee payer
always signs the full commitment; non-signature nodes pass through as
(value-identical) clones; a missing key aborts with an error naming the
affected account's public key. The input command is never mutated: the
output is built from fresh values. -/
theorem C6_addMissingSignatures_spec (env : Env) (cmd : ZkappCommand) (keys : List Nat) :
    (∀ res : ZkappCommandSigned, addMissingSignatures env cmd keys = Except.ok res →
      res.memo = cmd.memo ∧
      res.feePayer.body = cmd.feePayer.body ∧
      (cmd.feePayer.lazyAuthorization = Option.none →
        res.feePayer.authorization = cmd.feePayer.authorization) ∧
      (∀ ik, cmd.feePayer.lazyAuthorization = Option.some ik →
        ∃ sk, resolveKey env keys ik cmd.feePayer.body.publicKey = Option.some sk ∧
          res.feePayer.authorization =
            env.signFieldElement (env.transactionCommitments cmd).2 sk) ∧
      res.accountUpdates.length = cmd.accountUpdates.length ∧
      (∀ i u, cmd.accountUpdates.get? i = Option.some u →
        (∀ ik, u.data.lazyAuthorization = Option.some (.lazySignature ik) →
          ∃ sk, resolveKey env keys ik u.body.publicKey = Option.some sk ∧
            res.accountUpdates.get? i = Option.some
              (Authorization.setSignature u
                (env.signFieldElement
                  (if u.body.useFullCommitment then (env.transactionCommitments cmd).2
                   else (env.transactionCommitments cmd).1) sk))) ∧
        ((∀ ik, ¬ u.data.lazyAuthorization = Option.some (.lazySignature ik)) →
          res.accountUpdates.get? i = Option.some u))) ∧
    (∀ e, addMissingSignatures env cmd keys = Except.error e →
      (∃ ik, e = SignatureError.missingFeePayerKey cmd.feePayer.body.publicKey ∧
        cmd.feePayer.lazyAuthorization = Option.some ik ∧
        resolveKey env keys ik cmd.feePayer.body.publicKey = Option.none) ∨
      (∃ u, u ∈ cmd.accountUpdates ∧ ∃ ik,
        e = SignatureError.missingKey u.body.publicKey ∧
        u.data.lazyAuthorization = Option.some (.lazySignature ik) ∧
        resolveKey env keys ik u.body.publicKey = Option.none)) := by
  constructor
  · intro res h
    rw [addMissingSignatures] at h
    cases hfp : addFeePayerSignature env keys (env.transactionCommitments cmd).2 cmd.feePayer with
    | error e => rw [hfp] at h; cases h
    | ok fp =>
        rw [hfp] at h
        cases htr : traverseExcept
            (addSignature env keys (env.transactionCommitments cmd).1
              (env.transactionCommitments cmd).2) cmd.accountUpdates with
        | error e => rw [htr] at h; cases h
        | ok outs =>
            rw [htr] at h
            simp only [Except.ok.injEq] at h
            subst h
            obtain ⟨hbody, hnone, hsome⟩ :=
              addFeePayerSignature_ok env keys (env.transactionCommitments cmd).2
                cmd.feePayer fp hfp
            obtain ⟨hlen, hget⟩ :=
              traverseExcept_ok _ cmd.accountUpdates outs htr
            refine ⟨rfl, hbody, hnone, hsome, hlen, ?_⟩
            intro i u hu
            obtain ⟨v, hv, hv'⟩ := hget i u hu
            constructor
            · intro ik hik
              rw [addSignature_eq] at hv
              simp only [hik] at hv
              split at hv
              next hres => cases hv
              next sk hres =>
                injection hv with hv
                subst hv
                exact ⟨sk, hres, hv'⟩
            · intro hno
              rw [addSignature_pass env keys _ _ u hno] at hv
              injection hv with hv
              subst hv
              exact hv'
  · intro e h
    rw [addMissingSignatures] at h
    cases hfp : addFeePayerSignature env keys (env.transactionCommitments cmd).2 cmd.feePayer with
    | error e' =>
        rw [hfp] at h
        injection h with h
        subst h
        exact Or.inl (addFeePayerSignature_error env keys _ cmd.feePayer e' hfp)
    | ok fp =>
        rw [hfp] at h
        cases htr : traverseExcept
            (addSignature env keys (env.transactionCommitments cmd).1
              (env.transactionCommitments cmd).2) cmd.accountUpdates with
        | error e' =>
            rw [htr] at h
            injection h with h
            subst h
            obtain ⟨u, hu, hfu⟩ := traverseExcept_error _ cmd.accountUpdates e' htr
            obtain ⟨ik, he, hik, hres⟩ := addSignature_error env keys _ _ u e' hfu
            exact Or.inr ⟨u, hu, ik, he, hik, hres⟩
        | ok outs => rw [htr] at h; cases h

/-- Witness for C6 at a concrete command: the fee payer (explicit key 42)
signs the full commitment, the first update (key looked up in `extraKeys`)
signs the partial commitment, the second update passes through. -/
theorem C6_addMissingSignatures_spec_witness :
    addMissingSignatures sampleEnv c6Cmd [6] = Except.ok c6Res ∧
    c6Res.memo = c6Cmd.memo ∧
    c6Res.feePayer.body = c6Cmd.feePayer.body ∧
    c6Res.accountUpdates.length = c6Cmd.accountUpdates.length := by
  have heval : addMissingSignatures sampleEnv c6Cmd [6] = Except.ok c6Res := by
    rw [addMissingSignatures]
    rw [show (sampleEnv.transactionCommitments c6Cmd).1 = 13 from rfl]
    rw [show (sampleEnv.transactionCommitments c6Cmd).2 = 14 from rfl]
    rw [show c6Cmd.accountUpdates = [c6U1, c6U2] from rfl]
    rw [traverseExcept, traverseExcept, traverseExcept]
    rw [addSignature_eq, addSignature_eq]
    rfl
  have h := (C6_addMissingSignatures_spec sampleEnv c6Cmd [6]).1 c6Res heval
  exact ⟨heval, h.1, h.2.1, h.2.2.2.2.1⟩

/-- `addCallers` processes the head of the forest with `addCallersNode` and
the tail with the unchanged ambient context. -/
theorem addCallers_cons (env : Env) (u : AccountUpdate) (rest : List AccountUpdate)
    (context : CallForest.CallerContext) :
    CallForest.addCallers env (u :: rest) context =
      CallForest.addCallersNode env context u :: CallForest.addCallers env rest context := by
  cases u with
  | mk d cs => rw [CallForest.addCallers, CallForest.addCallersNode, CallForest.childContext]

/-- Index access into an `addCallers`-processed forest. -/
theorem addCallers_get? (env : Env) :
    ∀ (f : List AccountUpdate) (context : CallForest.CallerContext) (i : Nat),
      (CallForest.addCallers env f context).get? i =
        (f.get? i).map (CallForest.addCallersNode env context) := by
  intro f
  induction f with
  | nil => intro context i; rw [CallForest.addCallers]; cases i <;> rfl
  | cons u rest ih =>
      intro context i
      rw [addCallers_cons]
      cases i with
      | zero => rfl
      | succ j => simp only [List.get?_cons_succ, ih]

/-- One fold step of `computeCallerContext` over an ancestor equals the child
context `addCallers` hands down past that ancestor. -/
theorem callerStep_eq_childContext (env : Env) (w : AccountUpdate)
    (context : CallForest.CallerContext) :
    (if w.data.isDelegateCall then context
     else
       { caller := context.self
         self := env.customTokenId w.body.publicKey w.body.tokenId }) =
      CallForest.childContext env w.data context := by
  by_cases hd : w.data.isDelegateCall = true <;>
    simp [CallForest.childContext, AccountUpdate.body, hd]

/-- The top-down context accumulation of `addCallers` at a path equals the
fold of the one-pass ancestor walk, from any starting context. -/
theorem ctxAt_eq_fold (env : Env) :
    ∀ (p : List Nat) (f : List AccountUpdate) (context : CallForest.CallerContext)
      (u : AccountUpdate), CallForest.nodeAt f p = Option.some u →
      CallForest.ctxAt env f context p =
        Option.some ((CallForest.ancestorsAlong f p).foldl
          (fun ctx a =>
            if a.data.isDelegateCall then ctx
            else
              { caller := ctx.self
                self := env.customTokenId a.body.publicKey a.body.tokenId })
          context) := by
  intro p
  induction p with
  | nil => intro f context u h; rw [CallForest.nodeAt] at h; cases h
  | cons i rest ih =>
      intro f context u h
      cases rest with
      | nil =>
          rw [CallForest.nodeAt] at h
          rw [CallForest.ctxAt, CallForest.ancestorsAlong]
          rw [h]
          rfl
      | cons j rest' =>
          rw [CallForest.nodeAt] at h <;> try exact fun hx => List.noConfusion hx
          rw [CallForest.ctxAt, CallForest.ancestorsAlong] <;>
            try exact fun hx => List.noConfusion hx
          cases hget : f.get? i with
          | none => simp only [hget] at h; cases h
          | some w =>
              simp only [hget] at h ⊢
              rw [List.foldl_cons, callerStep_eq_childContext]
              exact ih w.children (CallForest.childContext env w.data context) u h

/-- The caller field `addCallers` writes at a path is determined by the
accumulated context there and the node's own delegate flag. -/
theorem addCallers_nodeAt (env : Env) :
    ∀ (p : List Nat) (f : List AccountUpdate) (context : CallForest.CallerContext)
      (u : AccountUpdate), CallForest.nodeAt f p = Option.some u →
      ∃ ctx', CallForest.ctxAt env f context p = Option.some ctx' ∧
        (CallForest.nodeAt (CallForest.addCallers env f context) p).map
            (fun v => v.body.caller) =
          Option.some (if u.data.isDelegateCall then ctx'.caller else ctx'.self) := by
  intro p
  induction p with
  | nil => intro f context u h; rw [CallForest.nodeAt] at h; cases h
  | cons i rest ih =>
      intro f context u h
      cases rest with
      | nil =>
          rw [CallForest.nodeAt] at h
          refine ⟨context, ?_, ?_⟩
          · rw [CallForest.ctxAt, h]
          · rw [CallForest.nodeAt, addCallers_get?, h]
            cases u with
            | mk d cs =>
                simp only [Option.map_some']
                rw [CallForest.addCallersNode]
                rfl
      | cons j rest' =>
          rw [CallForest.nodeAt] at h <;> try exact fun hx => List.noConfusion hx
          cases hget : f.get? i with
          | none => simp only [hget] at h; cases h
          | some w =>
              simp only [hget] at h
              obtain ⟨ctx', hctx, hcaller⟩ :=
                ih w.children (CallForest.childContext env w.data context) u h
              refine ⟨ctx', ?_, ?_⟩
              · rw [CallForest.ctxAt] <;> try exact fun hx => List.noConfusion hx
                simp only [hget]
                exact hctx
              · rw [CallForest.nodeAt, addCallers_get?] <;>
                  try exact fun hx => List.noConfusion hx
                simp only [hget, Option.map_some']
                cases w with
                | mk d cs =>
                    rw [CallForest.addCallersNode]
                    exact hcaller

/-- C7: for a node whose parent back-references are consistent with the tree
(modelled: the node is reached by a path, and its ancestor chain is the nodes
along that path), the one-pass ancestor-chain walk `computeCallerContext`
returns exactly the context the top-down `addCallers` pass, started from the
default root context, accumulates for that node — and the caller field
`addCallers` actually writes there is the one this context dictates. -/
theorem C7_computeCallerContext_spec (env : Env) (f : List AccountUpdate)
    (p : List Nat) (u : AccountUpdate) (h : CallForest.nodeAt f p = Option.some u) :
    CallForest.ctxAt env f CallForest.rootCallerContext p =
      Option.some (CallForest.computeCallerContextFold env (CallForest.ancestorsAlong f p)) ∧
    (CallForest.nodeAt (CallForest.addCallers env f CallForest.rootCallerContext) p).map
        (fun v => v.body.caller) =
      Option.some
        (if u.data.isDelegateCall then
          (CallForest.computeCallerContextFold env (CallForest.ancestorsAlong f p)).caller
         else
          (CallForest.computeCallerContextFold env (CallForest.ancestorsAlong f p)).self) := by
  obtain ⟨ctx', hctx, hcaller⟩ := addCallers_nodeAt env p f CallForest.rootCallerContext u h
  have h1 := ctxAt_eq_fold env p f CallForest.rootCallerContext u h
  rw [hctx] at h1
  injection h1 with h1
  subst h1
  exact ⟨hctx, hcaller⟩

/-- Witness for C7: a concrete forest whose root has a non-delegate leaf and
a delegate node; the path `[0, 1]` reaches the delegate node. -/
theorem C7_computeCallerContext_spec_witness :
    CallForest.nodeAt c7Forest [0, 1] = Option.some c7Delegate ∧
    (CallForest.ctxAt sampleEnv c7Forest CallForest.rootCallerContext [0, 1] =
      Option.some (CallForest.computeCallerContextFold sampleEnv
        (CallForest.ancestorsAlong c7Forest [0, 1])) ∧
     (CallForest.nodeAt
        (CallForest.addCallers sampleEnv c7Forest CallForest.rootCallerContext) [0, 1]).map
          (fun v => v.body.caller) =
      Option.some
        (if c7Delegate.data.isDelegateCall then
          (CallForest.computeCallerContextFold sampleEnv
            (CallForest.ancestorsAlong c7Forest [0, 1])).caller
         else
          (CallForest.computeCallerContextFold sampleEnv
            (CallForest.ancestorsAlong c7Forest [0, 1])).self)) := by
  have h : CallForest.nodeAt c7Forest [0, 1] = Option.some c7Delegate := by
    simp [CallForest.nodeAt, c7Forest, c7Root, c7B, c7Delegate, withChildren,
      AccountUpdate.new, AccountUpdate.children, AccountUpdate.data]
  exact ⟨h, C7_computeCallerContext_spec sampleEnv c7Forest [0, 1] c7Delegate h⟩

end O1js
